import Mathlib

/-!
Verification of the filter-compiler (`src/prefect/orion/schemas/filters.py`) and the
schedule materializer (`src/prefect/orion/services/scheduler.py`) of the Orion
orchestration engine, via a shallow embedding in Lean.

Conventions of the embedding:
* UUID identifiers are modelled as `Nat` (totally ordered, decidable equality).
  Python truthiness of a cursor value is modelled as `≠ 0` for `Nat` and
  `isSome` for `Option`.
* SQL WHERE-clause three-valued logic is collapsed to `Bool`: a row is selected
  iff the clause evaluates to TRUE, so a comparison or `IN` applied to a NULL
  column yields `false` (NULL is never selected).
* Timestamps are modelled as `Int`, schedules (opaque recurrence rules) as `String`.
* A compiled SQL filter over entity type `α` is a predicate `α → Bool`.
-/

namespace PrefectSpec

/-- Opaque recurrence rule attached to a deployment; contents irrelevant here. -/
abbrev Schedule := String

/-- Opaque state-type enum (`schemas.states.StateType`); contents irrelevant here. -/
abbrev StateType := String

/-- ORM `Deployment` row: identifier, name, tag set, optional schedule, active flag. -/
structure Deployment where
  id : Nat
  name : String
  tags : List String
  schedule : Option Schedule
  is_schedule_active : Bool
deriving DecidableEq, Repr

/-- ORM `Flow` row. -/
structure Flow where
  id : Nat
  name : String
  tags : List String
deriving DecidableEq, Repr

/-- ORM `FlowRunState` row, reached through the `FlowRun.state` relationship. -/
structure FlowRunState where
  name : String
deriving DecidableEq, Repr

/-- ORM `FlowRun` row with the columns the filters in `filters.py` touch. -/
structure FlowRun where
  id : Nat
  name : String
  tags : List String
  deployment_id : Option Nat
  state_type : Option StateType
  state : Option FlowRunState
  flow_version : Option String
  start_time : Option Int
  expected_start_time : Option Int
  next_scheduled_start_time : Option Int
  parent_task_run_id : Option Nat
deriving DecidableEq, Repr

/-- ORM `TaskRunState` row, reached through the `TaskRun.state` relationship. -/
structure TaskRunState where
  name : String
deriving DecidableEq, Repr

/-- ORM `TaskRun` row; `subflow_run` models the self-referential relationship to a
child flow run (`some` = a related row exists, as tested by SQL `EXISTS`). -/
structure TaskRun where
  id : Nat
  name : String
  tags : List String
  state_type : Option StateType
  state : Option TaskRunState
  start_time : Option Int
  subflow_run : Option Nat
deriving DecidableEq, Repr

/-- SQL `col IN (list)` on a NOT NULL column. Empty list compiles to FALSE. -/
def sqlIn {α : Type} [BEq α] (v : α) (l : List α) : Bool := l.contains v

/-- SQL `col IN (list)` on a nullable column: NULL is never selected. -/
def sqlInOpt {α : Type} [BEq α] (v : Option α) (l : List α) : Bool :=
  match v with
  | some x => l.contains x
  | none => false

/-- SQL `col NOT IN (list)` on a NOT NULL column. -/
def sqlNotIn {α : Type} [BEq α] (v : α) (l : List α) : Bool := !(l.contains v)

/-- SQL `col <= t` on a nullable timestamp column: NULL is never selected. -/
def sqlLe (v : Option Int) (t : Int) : Bool :=
  match v with
  | some x => decide (x ≤ t)
  | none => false

/-- SQL `col >= t` on a nullable timestamp column: NULL is never selected. -/
def sqlGe (v : Option Int) (t : Int) : Bool :=
  match v with
  | some x => decide (t ≤ x)
  | none => false

/-- Model of `json_has_all_keys(col, l)`: the JSON tag array contains every supplied key. -/
def json_has_all_keys (tags : List String) (l : List String) : Bool :=
  l.all (fun t => tags.contains t)

/-- Model of `PrefectFilterBaseModel.as_sql_filter`: `sa.and_(*filters) if filters else sa.and_(True)`.
Applied to the filter list produced by a `_get_filter_list` method. -/
def as_sql_filter {α : Type} (filters : List (α → Bool)) : α → Bool :=
  match filters with
  | [] => fun _ => true
  | fs => fun e => fs.all (fun p => p e)

/-- Helper for composite `_get_filter_list` bodies: `if slot is not None:
filters.append(slot.as_sql_filter())`, in declaration order via list append. -/
def optClause {α β : Type} (o : Option β) (g : β → α → Bool) : List (α → Bool) :=
  match o with
  | some x => [g x]
  | none => []

/-- Helper for `FlowRunFilterState`/`TaskRunFilterState` bodies, which use
`filters.extend(slot._get_filter_list())` instead of appending a compiled clause. -/
def optExtend {α β : Type} (o : Option β) (g : β → List (α → Bool)) : List (α → Bool) :=
  match o with
  | some x => g x
  | none => []

/-- Model of `FlowFilterId`: optional membership test on `orm.Flow.id`. -/
structure FlowFilterId where
  any_ : Option (List Nat)
deriving DecidableEq, Repr

def FlowFilterId.get_filter_list (f : FlowFilterId) : List (Flow → Bool) :=
  optClause f.any_ (fun l e => sqlIn e.id l)

def FlowFilterId.as_sql_filter (f : FlowFilterId) : Flow → Bool :=
  PrefectSpec.as_sql_filter f.get_filter_list

/-- Model of `FlowFilterName`: optional membership test on `orm.Flow.name`. -/
structure FlowFilterName where
  any_ : Option (List String)
deriving DecidableEq, Repr

def FlowFilterName.get_filter_list (f : FlowFilterName) : List (Flow → Bool) :=
  optClause f.any_ (fun l e => sqlIn e.name l)

def FlowFilterName.as_sql_filter (f : FlowFilterName) : Flow → Bool :=
  PrefectSpec.as_sql_filter f.get_filter_list

/-- Model of `FlowFilterTags`: optional tag-superset test and optional null-check on `orm.Flow.tags`. -/
structure FlowFilterTags where
  all_ : Option (List String)
  is_null_ : Option Bool
deriving DecidableEq, Repr

def FlowFilterTags.get_filter_list (f : FlowFilterTags) : List (Flow → Bool) :=
  optClause f.all_ (fun l e => json_has_all_keys e.tags l) ++
  optClause f.is_null_ (fun b e => if b then e.tags == [] else e.tags != [])

def FlowFilterTags.as_sql_filter (f : FlowFilterTags) : Flow → Bool :=
  PrefectSpec.as_sql_filter f.get_filter_list

/-- Model of `FlowFilter`: composite filter over flows; slots visited in declaration order. -/
structure FlowFilter where
  id : Option FlowFilterId
  name : Option FlowFilterName
  tags : Option FlowFilterTags
deriving DecidableEq, Repr

def FlowFilter.get_filter_list (f : FlowFilter) : List (Flow → Bool) :=
  optClause f.id FlowFilterId.as_sql_filter ++
  optClause f.name FlowFilterName.as_sql_filter ++
  optClause f.tags FlowFilterTags.as_sql_filter

def FlowFilter.as_sql_filter (f : FlowFilter) : Flow → Bool :=
  PrefectSpec.as_sql_filter f.get_filter_list

/-- Model of `FlowRunFilterId`: membership and exclusion on `orm.FlowRun.id`. -/
structure FlowRunFilterId where
  any_ : Option (List Nat)
  not_any_ : Option (List Nat)
deriving DecidableEq, Repr

def FlowRunFilterId.get_filter_list (f : FlowRunFilterId) : List (FlowRun → Bool) :=
  optClause f.any_ (fun l e => sqlIn e.id l) ++
  optClause f.not_any_ (fun l e => sqlNotIn e.id l)

def FlowRunFilterId.as_sql_filter (f : FlowRunFilterId) : FlowRun → Bool :=
  PrefectSpec.as_sql_filter f.get_filter_list

/-- Model of `FlowRunFilterName`. -/
structure FlowRunFilterName where
  any_ : Option (List String)
deriving DecidableEq, Repr

def FlowRunFilterName.get_filter_list (f : FlowRunFilterName) : List (FlowRun → Bool) :=
  optClause f.any_ (fun l e => sqlIn e.name l)

def FlowRunFilterName.as_sql_filter (f : FlowRunFilterName) : FlowRun → Bool :=
  PrefectSpec.as_sql_filter f.get_filter_list

/-- Model of `FlowRunFilterTags`. -/
structure FlowRunFilterTags where
  all_ : Option (List String)
  is_null_ : Option Bool
deriving DecidableEq, Repr

def FlowRunFilterTags.get_filter_list (f : FlowRunFilterTags) : List (FlowRun → Bool) :=
  optClause f.all_ (fun l e => json_has_all_keys e.tags l) ++
  optClause f.is_null_ (fun b e => if b then e.tags == [] else e.tags != [])

def FlowRunFilterTags.as_sql_filter (f : FlowRunFilterTags) : FlowRun → Bool :=
  PrefectSpec.as_sql_filter f.get_filter_list

/-- Model of `FlowRunFilterDeploymentId`: membership on nullable `orm.FlowRun.deployment_id`
plus null-check. -/
structure FlowRunFilterDeploymentId where
  any_ : Option (List Nat)
  is_null_ : Option Bool
deriving DecidableEq, Repr

def FlowRunFilterDeploymentId.get_filter_list (f : FlowRunFilterDeploymentId) :
    List (FlowRun → Bool) :=
  optClause f.any_ (fun l e => sqlInOpt e.deployment_id l) ++
  optClause f.is_null_ (fun b e => if b then e.deployment_id.isNone else e.deployment_id.isSome)

def FlowRunFilterDeploymentId.as_sql_filter (f : FlowRunFilterDeploymentId) : FlowRun → Bool :=
  PrefectSpec.as_sql_filter f.get_filter_list

/-- Model of `FlowRunFilterStateType`: membership on the `orm.FlowRun.state_type` column. -/
structure FlowRunFilterStateType where
  any_ : Option (List StateType)
deriving DecidableEq, Repr

def FlowRunFilterStateType.get_filter_list (f : FlowRunFilterStateType) :
    List (FlowRun → Bool) :=
  optClause f.any_ (fun l e => sqlInOpt e.state_type l)

def FlowRunFilterStateType.as_sql_filter (f : FlowRunFilterStateType) : FlowRun → Bool :=
  PrefectSpec.as_sql_filter f.get_filter_list

/-- Model of `FlowRunFilterStateName`: `orm.FlowRun.state.has(orm.FlowRunState.name.in_(l))` —
SQL EXISTS over the related state row. -/
structure FlowRunFilterStateName where
  any_ : Option (List String)
deriving DecidableEq, Repr

def FlowRunFilterStateName.get_filter_list (f : FlowRunFilterStateName) :
    List (FlowRun → Bool) :=
  optClause f.any_ (fun l e =>
    match e.state with
    | some st => sqlIn st.name l
    | none => false)

def FlowRunFilterStateName.as_sql_filter (f : FlowRunFilterStateName) : FlowRun → Bool :=
  PrefectSpec.as_sql_filter f.get_filter_list

/-- Model of `FlowRunFilterState`: one-level nested composite; its `_get_filter_list` extends with
the children's `_get_filter_list` results (not their `as_sql_filter`). -/
structure FlowRunFilterState where
  type : Option FlowRunFilterStateType
  name : Option FlowRunFilterStateName
deriving DecidableEq, Repr

def FlowRunFilterState.get_filter_list (f : FlowRunFilterState) : List (FlowRun → Bool) :=
  optExtend f.type FlowRunFilterStateType.get_filter_list ++
  optExtend f.name FlowRunFilterStateName.get_filter_list

def FlowRunFilterState.as_sql_filter (f : FlowRunFilterState) : FlowRun → Bool :=
  PrefectSpec.as_sql_filter f.get_filter_list

/-- Model of `FlowRunFilterFlowVersion`. -/
structure FlowRunFilterFlowVersion where
  any_ : Option (List String)
deriving DecidableEq, Repr

def FlowRunFilterFlowVersion.get_filter_list (f : FlowRunFilterFlowVersion) :
    List (FlowRun → Bool) :=
  optClause f.any_ (fun l e => sqlInOpt e.flow_version l)

def FlowRunFilterFlowVersion.as_sql_filter (f : FlowRunFilterFlowVersion) : FlowRun → Bool :=
  PrefectSpec.as_sql_filter f.get_filter_list

/-- Model of `FlowRunFilterStartTime`: inclusive range bounds plus null-check on
`orm.FlowRun.start_time`. -/
structure FlowRunFilterStartTime where
  before_ : Option Int
  after_ : Option Int
  is_null_ : Option Bool
deriving DecidableEq, Repr

def FlowRunFilterStartTime.get_filter_list (f : FlowRunFilterStartTime) :
    List (FlowRun → Bool) :=
  optClause f.before_ (fun t e => sqlLe e.start_time t) ++
  optClause f.after_ (fun t e => sqlGe e.start_time t) ++
  optClause f.is_null_ (fun b e => if b then e.start_time.isNone else e.start_time.isSome)

def FlowRunFilterStartTime.as_sql_filter (f : FlowRunFilterStartTime) : FlowRun → Bool :=
  PrefectSpec.as_sql_filter f.get_filter_list

/-- Model of `FlowRunFilterExpectedStartTime`. -/
structure FlowRunFilterExpectedStartTime where
  before_ : Option Int
  after_ : Option Int
deriving DecidableEq, Repr

def FlowRunFilterExpectedStartTime.get_filter_list (f : FlowRunFilterExpectedStartTime) :
    List (FlowRun → Bool) :=
  optClause f.before_ (fun t e => sqlLe e.expected_start_time t) ++
  optClause f.after_ (fun t e => sqlGe e.expected_start_time t)

def FlowRunFilterExpectedStartTime.as_sql_filter (f : FlowRunFilterExpectedStartTime) :
    FlowRun → Bool :=
  PrefectSpec.as_sql_filter f.get_filter_list

/-- Model of `FlowRunFilterNextScheduledStartTime`. -/
structure FlowRunFilterNextScheduledStartTime where
  before_ : Option Int
  after_ : Option Int
deriving DecidableEq, Repr

def FlowRunFilterNextScheduledStartTime.get_filter_list
    (f : FlowRunFilterNextScheduledStartTime) : List (FlowRun → Bool) :=
  optClause f.before_ (fun t e => sqlLe e.next_scheduled_start_time t) ++
  optClause f.after_ (fun t e => sqlGe e.next_scheduled_start_time t)

def FlowRunFilterNextScheduledStartTime.as_sql_filter
    (f : FlowRunFilterNextScheduledStartTime) : FlowRun → Bool :=
  PrefectSpec.as_sql_filter f.get_filter_list

/-- Model of `FlowRunFilterParentTaskRunId`. -/
structure FlowRunFilterParentTaskRunId where
  any_ : Option (List Nat)
  is_null_ : Option Bool
deriving DecidableEq, Repr

def FlowRunFilterParentTaskRunId.get_filter_list (f : FlowRunFilterParentTaskRunId) :
    List (FlowRun → Bool) :=
  optClause f.any_ (fun l e => sqlInOpt e.parent_task_run_id l) ++
  optClause f.is_null_ (fun b e =>
    if b then e.parent_task_run_id.isNone else e.parent_task_run_id.isSome)

def FlowRunFilterParentTaskRunId.as_sql_filter (f : FlowRunFilterParentTaskRunId) :
    FlowRun → Bool :=
  PrefectSpec.as_sql_filter f.get_filter_list

/-- Model of `FlowRunFilter`: composite filter over flow runs. Slots are visited in the fixed
order of the source `_get_filter_list` body (note: `flow_version` before `state`). -/
structure FlowRunFilter where
  id : Option FlowRunFilterId
  name : Option FlowRunFilterName
  tags : Option FlowRunFilterTags
  deployment_id : Option FlowRunFilterDeploymentId
  state : Option FlowRunFilterState
  flow_version : Option FlowRunFilterFlowVersion
  start_time : Option FlowRunFilterStartTime
  expected_start_time : Option FlowRunFilterExpectedStartTime
  next_scheduled_start_time : Option FlowRunFilterNextScheduledStartTime
  parent_task_run_id : Option FlowRunFilterParentTaskRunId
deriving DecidableEq, Repr

def FlowRunFilter.get_filter_list (f : FlowRunFilter) : List (FlowRun → Bool) :=
  optClause f.id FlowRunFilterId.as_sql_filter ++
  optClause f.name FlowRunFilterName.as_sql_filter ++
  optClause f.tags FlowRunFilterTags.as_sql_filter ++
  optClause f.deployment_id FlowRunFilterDeploymentId.as_sql_filter ++
  optClause f.flow_version FlowRunFilterFlowVersion.as_sql_filter ++
  optClause f.state FlowRunFilterState.as_sql_filter ++
  optClause f.start_time FlowRunFilterStartTime.as_sql_filter ++
  optClause f.expected_start_time FlowRunFilterExpectedStartTime.as_sql_filter ++
  optClause f.next_scheduled_start_time FlowRunFilterNextScheduledStartTime.as_sql_filter ++
  optClause f.parent_task_run_id FlowRunFilterParentTaskRunId.as_sql_filter

def FlowRunFilter.as_sql_filter (f : FlowRunFilter) : FlowRun → Bool :=
  PrefectSpec.as_sql_filter f.get_filter_list

/-- Model of `TaskRunFilterId`. -/
structure TaskRunFilterId where
  any_ : Option (List Nat)
deriving DecidableEq, Repr

def TaskRunFilterId.get_filter_list (f : TaskRunFilterId) : List (TaskRun → Bool) :=
  optClause f.any_ (fun l e => sqlIn e.id l)

def TaskRunFilterId.as_sql_filter (f : TaskRunFilterId) : TaskRun → Bool :=
  PrefectSpec.as_sql_filter f.get_filter_list

/-- Model of `TaskRunFilterName`. -/
structure TaskRunFilterName where
  any_ : Option (List String)
deriving DecidableEq, Repr

def TaskRunFilterName.get_filter_list (f : TaskRunFilterName) : List (TaskRun → Bool) :=
  optClause f.any_ (fun l e => sqlIn e.name l)

def TaskRunFilterName.as_sql_filter (f : TaskRunFilterName) : TaskRun → Bool :=
  PrefectSpec.as_sql_filter f.get_filter_list

/-- Model of `TaskRunFilterTags`. -/
structure TaskRunFilterTags where
  all_ : Option (List String)
  is_null_ : Option Bool
deriving DecidableEq, Repr

def TaskRunFilterTags.get_filter_list (f : TaskRunFilterTags) : List (TaskRun → Bool) :=
  optClause f.all_ (fun l e => json_has_all_keys e.tags l) ++
  optClause f.is_null_ (fun b e => if b then e.tags == [] else e.tags != [])

def TaskRunFilterTags.as_sql_filter (f : TaskRunFilterTags) : TaskRun → Bool :=
  PrefectSpec.as_sql_filter f.get_filter_list

/-- Model of `TaskRunFilterStateType`. -/
structure TaskRunFilterStateType where
  any_ : Option (List StateType)
deriving DecidableEq, Repr

def TaskRunFilterStateType.get_filter_list (f : TaskRunFilterStateType) :
    List (TaskRun → Bool) :=
  optClause f.any_ (fun l e => sqlInOpt e.state_type l)

def TaskRunFilterStateType.as_sql_filter (f : TaskRunFilterStateType) : TaskRun → Bool :=
  PrefectSpec.as_sql_filter f.get_filter_list

/-- Model of `TaskRunFilterStateName`. -/
structure TaskRunFilterStateName where
  any_ : Option (List String)
deriving DecidableEq, Repr

def TaskRunFilterStateName.get_filter_list (f : TaskRunFilterStateName) :
    List (TaskRun → Bool) :=
  optClause f.any_ (fun l e =>
    match e.state with
    | some st => sqlIn st.name l
    | none => false)

def TaskRunFilterStateName.as_sql_filter (f : TaskRunFilterStateName) : TaskRun → Bool :=
  PrefectSpec.as_sql_filter f.get_filter_list

/-- Model of `TaskRunFilterState`: nested composite extending with children's filter lists. -/
structure TaskRunFilterState where
  type : Option TaskRunFilterStateType
  name : Option TaskRunFilterStateName
deriving DecidableEq, Repr

def TaskRunFilterState.get_filter_list (f : TaskRunFilterState) : List (TaskRun → Bool) :=
  optExtend f.type TaskRunFilterStateType.get_filter_list ++
  optExtend f.name TaskRunFilterStateName.get_filter_list

def TaskRunFilterState.as_sql_filter (f : TaskRunFilterState) : TaskRun → Bool :=
  PrefectSpec.as_sql_filter f.get_filter_list

/-- Model of `TaskRunFilterSubFlowRuns`: existence test on the self-referential relationship;
`exists_ = True` appends `subflow_run.has()`, `exists_ = False` appends its negation,
unset appends nothing. -/
structure TaskRunFilterSubFlowRuns where
  exists_ : Option Bool
deriving DecidableEq, Repr

def TaskRunFilterSubFlowRuns.get_filter_list (f : TaskRunFilterSubFlowRuns) :
    List (TaskRun → Bool) :=
  match f.exists_ with
  | some true => [fun e => e.subflow_run.isSome]
  | some false => [fun e => !(e.subflow_run.isSome)]
  | none => []

def TaskRunFilterSubFlowRuns.as_sql_filter (f : TaskRunFilterSubFlowRuns) : TaskRun → Bool :=
  PrefectSpec.as_sql_filter f.get_filter_list

/-- Model of `TaskRunFilterStartTime`. -/
structure TaskRunFilterStartTime where
  before_ : Option Int
  after_ : Option Int
  is_null_ : Option Bool
deriving DecidableEq, Repr

def TaskRunFilterStartTime.get_filter_list (f : TaskRunFilterStartTime) :
    List (TaskRun → Bool) :=
  optClause f.before_ (fun t e => sqlLe e.start_time t) ++
  optClause f.after_ (fun t e => sqlGe e.start_time t) ++
  optClause f.is_null_ (fun b e => if b then e.start_time.isNone else e.start_time.isSome)

def TaskRunFilterStartTime.as_sql_filter (f : TaskRunFilterStartTime) : TaskRun → Bool :=
  PrefectSpec.as_sql_filter f.get_filter_list

/-- Model of `TaskRunFilter`: composite filter over task runs, slots in source order. -/
structure TaskRunFilter where
  id : Option TaskRunFilterId
  name : Option TaskRunFilterName
  tags : Option TaskRunFilterTags
  state : Option TaskRunFilterState
  start_time : Option TaskRunFilterStartTime
  subflow_runs : Option TaskRunFilterSubFlowRuns
deriving DecidableEq, Repr

def TaskRunFilter.get_filter_list (f : TaskRunFilter) : List (TaskRun → Bool) :=
  optClause f.id TaskRunFilterId.as_sql_filter ++
  optClause f.name TaskRunFilterName.as_sql_filter ++
  optClause f.tags TaskRunFilterTags.as_sql_filter ++
  optClause f.state TaskRunFilterState.as_sql_filter ++
  optClause f.start_time TaskRunFilterStartTime.as_sql_filter ++
  optClause f.subflow_runs TaskRunFilterSubFlowRuns.as_sql_filter

def TaskRunFilter.as_sql_filter (f : TaskRunFilter) : TaskRun → Bool :=
  PrefectSpec.as_sql_filter f.get_filter_list

/-- Model of `DeploymentFilterId`. -/
structure DeploymentFilterId where
  any_ : Option (List Nat)
deriving DecidableEq, Repr

def DeploymentFilterId.get_filter_list (f : DeploymentFilterId) : List (Deployment → Bool) :=
  optClause f.any_ (fun l e => sqlIn e.id l)

def DeploymentFilterId.as_sql_filter (f : DeploymentFilterId) : Deployment → Bool :=
  PrefectSpec.as_sql_filter f.get_filter_list

/-- Model of `DeploymentFilterName`. -/
structure DeploymentFilterName where
  any_ : Option (List String)
deriving DecidableEq, Repr

def DeploymentFilterName.get_filter_list (f : DeploymentFilterName) :
    List (Deployment → Bool) :=
  optClause f.any_ (fun l e => sqlIn e.name l)

def DeploymentFilterName.as_sql_filter (f : DeploymentFilterName) : Deployment → Bool :=
  PrefectSpec.as_sql_filter f.get_filter_list

/-- Model of `DeploymentFilterIsScheduleActive`: equality test on the boolean column. -/
structure DeploymentFilterIsScheduleActive where
  eq_ : Option Bool
deriving DecidableEq, Repr

def DeploymentFilterIsScheduleActive.get_filter_list (f : DeploymentFilterIsScheduleActive) :
    List (Deployment → Bool) :=
  optClause f.eq_ (fun b e => e.is_schedule_active == b)

def DeploymentFilterIsScheduleActive.as_sql_filter (f : DeploymentFilterIsScheduleActive) :
    Deployment → Bool :=
  PrefectSpec.as_sql_filter f.get_filter_list

/-- Model of `DeploymentFilterTags`. -/
structure DeploymentFilterTags where
  all_ : Option (List String)
  is_null_ : Option Bool
deriving DecidableEq, Repr

def DeploymentFilterTags.get_filter_list (f : DeploymentFilterTags) :
    List (Deployment → Bool) :=
  optClause f.all_ (fun l e => json_has_all_keys e.tags l) ++
  optClause f.is_null_ (fun b e => if b then e.tags == [] else e.tags != [])

def DeploymentFilterTags.as_sql_filter (f : DeploymentFilterTags) : Deployment → Bool :=
  PrefectSpec.as_sql_filter f.get_filter_list

/-- Model of `DeploymentFilter`: composite filter over deployments, slots in source order. -/
structure DeploymentFilter where
  id : Option DeploymentFilterId
  name : Option DeploymentFilterName
  is_schedule_active : Option DeploymentFilterIsScheduleActive
  tags : Option DeploymentFilterTags
deriving DecidableEq, Repr

def DeploymentFilter.get_filter_list (f : DeploymentFilter) : List (Deployment → Bool) :=
  optClause f.id DeploymentFilterId.as_sql_filter ++
  optClause f.name DeploymentFilterName.as_sql_filter ++
  optClause f.is_schedule_active DeploymentFilterIsScheduleActive.as_sql_filter ++
  optClause f.tags DeploymentFilterTags.as_sql_filter

def DeploymentFilter.as_sql_filter (f : DeploymentFilter) : Deployment → Bool :=
  PrefectSpec.as_sql_filter f.get_filter_list

/-- Model of `BaseFilterCriteria`: one composite filter per entity kind, each defaulting to the
all-unset filter (pydantic `default_factory` with every slot `None`). -/
structure BaseFilterCriteria where
  flow_filter : FlowFilter
  flow_run_filter : FlowRunFilter
  task_run_filter : TaskRunFilter
  deployment_filter : DeploymentFilter
deriving DecidableEq, Repr

/-- The default `BaseFilterCriteria`: every composite has every child slot unset. -/
def BaseFilterCriteria.default : BaseFilterCriteria where
  flow_filter := ⟨none, none, none⟩
  flow_run_filter := ⟨none, none, none, none, none, none, none, none, none, none⟩
  task_run_filter := ⟨none, none, none, none, none, none⟩
  deployment_filter := ⟨none, none, none, none⟩

/-- Candidate run specification handed from the schedule generator to the bulk insert:
only its dedup key `(deployment_id, scheduled_time)` matters here. -/
structure RunKey where
  deployment_id : Nat
  scheduled_time : Int
deriving DecidableEq, Repr

/-- WHERE clause of the scheduler's deployment query:
`is_schedule_active.is_(True)` and `schedule.is_not(None)`. -/
def scheduledActive (d : Deployment) : Bool :=
  d.is_schedule_active && d.schedule.isSome

/-- Python truthiness of the optional cursor (`if last_id:`): `None` and `0` are falsy. -/
def truthy : Option Nat → Bool
  | none => false
  | some n => n != 0

/-- ORDER BY `Deployment.id` comparison. -/
def byIdLe (a b : Deployment) : Prop := a.id ≤ b.id

/-- Strict version of the ordering, used to state uniqueness of sorted results. -/
def byIdLt (a b : Deployment) : Prop := a.id < b.id

instance : DecidableRel byIdLe := fun a b => Nat.decLe a.id b.id

instance : DecidableRel byIdLt := fun a b => Nat.decLt a.id b.id

instance : IsTotal Deployment byIdLe := ⟨fun a b => Nat.le_total a.id b.id⟩

instance : IsTrans Deployment byIdLe := ⟨fun _ _ _ h h2 => Nat.le_trans h h2⟩

instance : IsTrans Deployment byIdLt := ⟨fun _ _ _ h h2 => Nat.lt_trans h h2⟩

instance : IsAntisymm Deployment byIdLt :=
  ⟨fun _ _ h h2 => absurd h2 (Nat.lt_asymm h)⟩

/-- Cursor part of the page query: `id > last_id` is added to the WHERE clause only
when `last_id` is truthy (`if last_id:` in the source). -/
def cursorOk (last_id : Option Nat) (d : Deployment) : Bool :=
  if truthy last_id then decide (last_id.getD 0 < d.id) else true

/-- One page of the scheduler's cursor pagination: WHERE active-and-scheduled
(plus `id > last_id` only when `last_id` is truthy), ORDER BY id, LIMIT `P`.
The ORDER BY is embedded as a stable sort of the matching rows. -/
def deploymentsPage (table : List Deployment) (P : Nat) (last_id : Option Nat) :
    List Deployment :=
  let rows := table.filter fun d => scheduledActive d && cursorOk last_id d
  (List.insertionSort byIdLe rows).take P

/-- The pagination loop of `Scheduler.run_once`, stripped of run generation: collect
the successive pages, stop after the first page shorter than `P`, otherwise continue
from the page's last deployment id. `none` means the fuel ran out before the loop
finished (or the page was empty in the `else` branch, where Python's
`deployments[-1]` raises). -/
def pagesAux (table : List Deployment) (P : Nat) : Nat → Option Nat →
    Option (List (List Deployment))
  | 0, _ => none
  | fuel + 1, last_id =>
    let deployments := deploymentsPage table P last_id
    if deployments.length < P then
      some [deployments]
    else
      match deployments.getLast? with
      | none => none
      | some d => (pagesAux table P fuel (some d.id)).map (deployments :: ·)

/-- The full page sequence of one invocation, starting from an unset cursor. -/
def runPages (table : List Deployment) (P : Nat) (fuel : Nat) :
    Option (List (List Deployment)) :=
  pagesAux table P fuel none

/-- The pagination loop terminates: some finite fuel reaches the short final page. -/
def paginationTerminates (table : List Deployment) (P : Nat) : Prop :=
  ∃ fuel, (runPages table P fuel).isSome

/-- Modelled from the spec: `batched_iterable` (`prefect.utilities.collections`) is not
under `src/`; section 4.2 step 6 says accumulated candidates are split into chunks of at
most `insert_batch_size` rows, in order. Structural fuel (`l.length`) only bounds the
recursion; with a positive chunk size it is never exhausted. -/
def batchesGo {α : Type} (n : Nat) : Nat → List α → List (List α)
  | _, [] => []
  | 0, l => [l]
  | fuel + 1, l => l.take n :: batchesGo n fuel (l.drop n)

/-- Modelled from the spec: chunking entry point, `batched_iterable(iterable, size)`. -/
def batched_iterable {α : Type} (l : List α) (n : Nat) : List (List α) :=
  batchesGo n l.length l

/-- The `for deployment in deployments` body: call the generator per deployment in page
order and extend `all_runs`; any raised error aborts the invocation. `gen` is the
external `models.deployments._generate_scheduled_flow_runs` already applied to the
invocation-wide `(start_time, end_time, max_runs)` arguments. -/
def collectRuns {E : Type} (gen : Nat → Except E (List RunKey)) :
    List Deployment → Except E (List RunKey)
  | [] => Except.ok []
  | d :: ds =>
    match gen d.id with
    | Except.error e => Except.error e
    | Except.ok runs =>
      match collectRuns gen ds with
      | Except.error e => Except.error e
      | Except.ok rest => Except.ok (runs ++ rest)

/-- The `for batch in batched_iterable(...)` body: offer each chunk to the external
bulk-insert collaborator `ins` (which returns the mutated session state and the number
of rows it actually inserted), flush, and accumulate the inserted-row count. -/
def insertBatches {σ E : Type} (ins : σ → List RunKey → Except E (σ × Nat)) :
    List (List RunKey) → σ → Nat → Except E (σ × Nat)
  | [], s, total => Except.ok (s, total)
  | b :: bs, s, total =>
    match ins s b with
    | Except.error e => Except.error e
    | Except.ok (s', n) => insertBatches ins bs s' (total + n)

/-- Body of `Scheduler.run_once`'s `while True` loop, inside the transaction: fetch a
page, generate candidates for each deployment of the page, bulk-insert them in chunks
of `ibs`, then either stop (short page) or continue from the page's last id. The state
`σ` models the session-visible run table; `none` = fuel exhausted (or the empty-page
`deployments[-1]` IndexError). -/
def run_once_aux {σ E : Type} (gen : Nat → Int → Int → Nat → Except E (List RunKey))
    (ins : σ → List RunKey → Except E (σ × Nat)) (table : List Deployment)
    (P maxRuns ibs : Nat) (now horizon : Int) :
    Nat → Option Nat → σ → Nat → Option (Except E (σ × Nat))
  | 0, _, _, _ => none
  | fuel + 1, last_id, s, total =>
    let deployments := deploymentsPage table P last_id
    match collectRuns (fun i => gen i now (now + horizon) maxRuns) deployments with
    | Except.error e => some (Except.error e)
    | Except.ok all_runs =>
      match insertBatches ins (batched_iterable all_runs ibs) s total with
      | Except.error e => some (Except.error e)
      | Except.ok (s', total') =>
        if deployments.length < P then some (Except.ok (s', total'))
        else
          match deployments.getLast? with
          | none => none
          | some d =>
            run_once_aux gen ins table P maxRuns ibs now horizon fuel (some d.id) s' total'

/-- Model of `Scheduler.run_once`: one invocation. The whole loop runs inside a single
`session.begin()` transaction, so a raised error rolls the session back to the initial
state while normal completion commits the final state; the reported value is the total
of inserted-row counts. -/
def run_once {σ E : Type} (gen : Nat → Int → Int → Nat → Except E (List RunKey))
    (ins : σ → List RunKey → Except E (σ × Nat)) (table : List Deployment)
    (P maxRuns ibs : Nat) (now horizon : Int) (fuel : Nat) (init : σ) :
    Option (σ × Except E Nat) :=
  match run_once_aux gen ins table P maxRuns ibs now horizon fuel none init 0 with
  | none => none
  | some (Except.error e) => some (init, Except.error e)
  | some (Except.ok (s, total)) => some (s, Except.ok total)

/-- Modelled from the spec: `models.deployments._insert_scheduled_flow_runs` is not
under `src/`; section 6 says it enforces uniqueness on `(deployment_id, scheduled_time)`,
silently omits duplicates, and returns the subset of offered runs actually inserted. -/
def insert_scheduled_flow_runs (db : List RunKey) : List RunKey → List RunKey × List RunKey
  | [] => (db, [])
  | r :: rs =>
    if db.contains r then insert_scheduled_flow_runs db rs
    else
      let p := insert_scheduled_flow_runs (db ++ [r]) rs
      (p.1, r :: p.2)

/-- The deduplicating insert collaborator packaged for `run_once`: state is the visible
run table, the reported count is the number of rows actually inserted. -/
def insDedup {E : Type} : List RunKey → List RunKey → Except E (List RunKey × Nat) :=
  fun db batch =>
    let p := insert_scheduled_flow_runs db batch
    Except.ok (p.1, p.2.length)

/-- A generator that never raises, from a pure candidate function: determinism for a
fixed window is inherited from functional purity. -/
def pureGen {E : Type} (g : Nat → Int → Int → Nat → List RunKey) :
    Nat → Int → Int → Nat → Except E (List RunKey) :=
  fun i a b n => Except.ok (g i a b n)

/-- A logging insert collaborator: records every chunk it is offered, in order. -/
def insLog {E : Type} : List (List RunKey) → List RunKey →
    Except E (List (List RunKey) × Nat) :=
  fun log batch => Except.ok (log ++ [batch], 0)

/-- Sample flow used to instantiate filter theorems on concrete inputs. -/
def sampleFlow : Flow :=
  { id := 1, name := "my-flow", tags := ["a"] }

/-- Sample flow run used to instantiate filter theorems on concrete inputs. -/
def sampleFlowRun : FlowRun :=
  { id := 7, name := "my-flow-run", tags := ["a", "b"], deployment_id := some 3
    state_type := some "SCHEDULED", state := some ⟨"Scheduled"⟩
    flow_version := some "v1", start_time := some 3, expected_start_time := some 3
    next_scheduled_start_time := none, parent_task_run_id := none }

theorem as_sql_filter_eq_all {α : Type} (filters : List (α → Bool)) (e : α) :
    as_sql_filter filters e = filters.all (fun p => p e) := by
  cases filters with
  | nil => rfl
  | cons p ps => rfl

/-- C2 counterexample: on the concrete flow `sampleFlow`, a membership (`any_`) field
set to the empty list selects nothing, while the absent field selects the flow, so the
two compiled predicates are not equivalent. -/
theorem flowFilterId_empty_list_cex :
    FlowFilterId.as_sql_filter ⟨some []⟩ sampleFlow = false ∧
      FlowFilterId.as_sql_filter ⟨none⟩ sampleFlow = true :=
  ⟨rfl, rfl⟩

/-- C2 (amended): a membership (`any_`) field set to the empty list compiles to an
unsatisfiable constraint (`id IN ()` — no entity is selected); only the absent (`None`)
field imposes no constraint and selects every entity. -/
theorem flowFilterId_empty_list_selects_none (fl : Flow) :
    FlowFilterId.as_sql_filter ⟨some []⟩ fl = false ∧
      FlowFilterId.as_sql_filter ⟨none⟩ fl = true :=
  ⟨rfl, rfl⟩

/-- C3: the all-absent filter criteria compile to the constant-true predicate: with
every operator field and child slot unset, each of the four composite filters of the
default `BaseFilterCriteria` selects every entity, and an all-unset leaf does too. -/
theorem all_absent_criteria_select_everything (fl : Flow) (fr : FlowRun) (tr : TaskRun)
    (dp : Deployment) :
    BaseFilterCriteria.default.flow_filter.as_sql_filter fl = true ∧
      BaseFilterCriteria.default.flow_run_filter.as_sql_filter fr = true ∧
      BaseFilterCriteria.default.task_run_filter.as_sql_filter tr = true ∧
      BaseFilterCriteria.default.deployment_filter.as_sql_filter dp = true ∧
      FlowFilterTags.as_sql_filter ⟨none, none⟩ fl = true ∧
      FlowRunFilterStartTime.as_sql_filter ⟨none, none, none⟩ fr = true :=
  ⟨rfl, rfl, rfl, rfl, rfl, rfl⟩

/-- C6: a range leaf with both bounds set (`after_ = T2`, `before_ = T1`, `T2 ≤ T1`)
selects exactly the flow runs whose start time is a non-NULL value in the closed
interval `[T2, T1]`; both bounds are inclusive and combined by AND. -/
theorem flowRunFilterStartTime_range (T1 T2 : Int) (hT : T2 ≤ T1) (e : FlowRun) :
    FlowRunFilterStartTime.as_sql_filter ⟨some T1, some T2, none⟩ e = true ↔
      ∃ t, e.start_time = some t ∧ T2 ≤ t ∧ t ≤ T1 := by
  cases h : e.start_time with
  | none =>
    simp [FlowRunFilterStartTime.as_sql_filter, FlowRunFilterStartTime.get_filter_list,
      PrefectSpec.as_sql_filter, optClause, sqlLe, sqlGe, h]
  | some t =>
    simp [FlowRunFilterStartTime.as_sql_filter, FlowRunFilterStartTime.get_filter_list,
      PrefectSpec.as_sql_filter, optClause, sqlLe, sqlGe, h, and_comm]

/-- C6 witness: the interval `[1, 5]` selects the sample run starting at time `3`. -/
theorem flowRunFilterStartTime_range_witness :
    FlowRunFilterStartTime.as_sql_filter ⟨some 5, some 1, none⟩ sampleFlowRun = true :=
  (flowRunFilterStartTime_range 5 1 (by decide) sampleFlowRun).mpr
    ⟨3, rfl, by decide, by decide⟩

/-- C7: a tag leaf with `is_null_ = true` selects exactly the flows with an empty tag
set; with `is_null_ = false` exactly the flows with at least one tag; and a leaf
setting both `all_` and `is_null_ = false` selects exactly the conjunction of the
superset constraint and the non-emptiness constraint. -/
theorem flowFilterTags_null_and_superset (l : List String) (fl : Flow) :
    (FlowFilterTags.as_sql_filter ⟨none, some true⟩ fl = true ↔ fl.tags = []) ∧
      (FlowFilterTags.as_sql_filter ⟨none, some false⟩ fl = true ↔ fl.tags ≠ []) ∧
      (FlowFilterTags.as_sql_filter ⟨some l, some false⟩ fl = true ↔
        ((∀ t ∈ l, t ∈ fl.tags) ∧ fl.tags ≠ [])) := by
  refine ⟨?_, ?_, ?_⟩ <;>
    simp [FlowFilterTags.as_sql_filter, FlowFilterTags.get_filter_list,
      PrefectSpec.as_sql_filter, optClause, json_has_all_keys, List.contains]

/-- C8: the compiled predicate of a composite `FlowRunFilter` is the conjunction of the
compiled clauses of its present child slots, and its truth value is invariant under any
permutation of the visitation order of those clauses. -/
theorem flowRunFilter_conjunction_perm_invariant (f : FlowRunFilter) (e : FlowRun)
    (l : List (FlowRun → Bool)) (hperm : l.Perm f.get_filter_list) :
    f.as_sql_filter e = true ↔ ∀ p ∈ l, p e = true := by
  have h : f.as_sql_filter e = true ↔ ∀ p ∈ f.get_filter_list, p e = true := by
    rw [FlowRunFilter.as_sql_filter, as_sql_filter_eq_all]
    simp
  rw [h]
  exact ⟨fun hh p hp => hh p (hperm.mem_iff.mp hp),
    fun hh p hp => hh p (hperm.mem_iff.mpr hp)⟩

/-- Sample composite flow-run filter with two present slots (id membership and tags). -/
def sampleFlowRunFilter : FlowRunFilter :=
  { id := some ⟨some [7, 8], none⟩, name := none, tags := some ⟨some ["a"], some false⟩
    deployment_id := none, state := none, flow_version := none, start_time := none
    expected_start_time := none, next_scheduled_start_time := none
    parent_task_run_id := none }

/-- C8 witness: visiting the sample filter's two present clauses in reversed order
yields the same selection of the sample flow run. -/
theorem flowRunFilter_conjunction_perm_invariant_witness :
    sampleFlowRunFilter.as_sql_filter sampleFlowRun = true ↔
      ∀ p ∈ sampleFlowRunFilter.get_filter_list.reverse, p sampleFlowRun = true :=
  flowRunFilter_conjunction_perm_invariant sampleFlowRunFilter sampleFlowRun
    sampleFlowRunFilter.get_filter_list.reverse (List.reverse_perm _)

/-- Specification of the page sequence produced by cursor pagination over an
already-sorted row list: successive `take P` chunks, ending with the first chunk
shorter than `P`. The fuel argument only bounds the recursion; `l.length` suffices
whenever `0 < P`. -/
def chunksGo {α : Type} (P : Nat) : Nat → List α → List (List α)
  | 0, l => [l]
  | n + 1, l => if l.length < P then [l] else l.take P :: chunksGo P n (l.drop P)

theorem chunksGo_join {α : Type} (P : Nat) :
    ∀ (n : Nat) (l : List α), (chunksGo P n l).join = l
  | 0, l => by simp [chunksGo]
  | n + 1, l => by
    by_cases h : l.length < P
    · simp [chunksGo, h]
    · simp [chunksGo, h, chunksGo_join P n (l.drop P)]

theorem chunksGo_ne_nil {α : Type} (P n : Nat) (l : List α) : chunksGo P n l ≠ [] := by
  cases n with
  | zero => simp [chunksGo]
  | succ n =>
    by_cases h : l.length < P
    · simp [chunksGo, h]
    · simp [chunksGo, h]

theorem chunksGo_dropLast_full {α : Type} (P : Nat) (hP : 0 < P) :
    ∀ (n : Nat) (l : List α), l.length ≤ n →
      ∀ pg ∈ (chunksGo P n l).dropLast, pg.length = P
  | 0, l, hn => by
    have : l = [] := List.eq_nil_of_length_eq_zero (Nat.le_zero.mp hn)
    subst this
    simp [chunksGo]
  | n + 1, l, hn => by
    by_cases h : l.length < P
    · simp [chunksGo, h]
    · have hrec := chunksGo_dropLast_full P hP n (l.drop P)
        (by simp; omega)
    -- the recursive chunk list is nonempty, so dropLast distributes over the cons
      have hne := chunksGo_ne_nil P n (l.drop P)
      intro pg hpg
      rw [chunksGo] at hpg
      simp only [if_neg h] at hpg
      rw [List.dropLast_cons_of_ne_nil hne] at hpg
      rcases List.mem_cons.mp hpg with h1 | h2
      · subst h1
        simp [List.length_take]
        omega
      · exact hrec pg h2

theorem chunksGo_getLast_short {α : Type} (P : Nat) (hP : 0 < P) :
    ∀ (n : Nat) (l : List α), l.length ≤ n →
      ∀ pg, (chunksGo P n l).getLast? = some pg → pg.length < P
  | 0, l, hn => by
    have : l = [] := List.eq_nil_of_length_eq_zero (Nat.le_zero.mp hn)
    subst this
    intro pg hpg
    simp [chunksGo] at hpg
    subst hpg
    simpa using hP
  | n + 1, l, hn => by
    intro pg hpg
    by_cases h : l.length < P
    · rw [chunksGo] at hpg
      simp only [if_pos h] at hpg
      simp at hpg
      subst hpg
      exact h
    · rw [chunksGo] at hpg
      simp only [if_neg h] at hpg
      cases hcg : chunksGo P n (l.drop P) with
      | nil => exact absurd hcg (chunksGo_ne_nil P n (l.drop P))
      | cons b bs =>
        rw [hcg, List.getLast?_cons_cons] at hpg
        exact chunksGo_getLast_short P hP n (l.drop P) (by simp; omega) pg
          (by rw [hcg]; exact hpg)

theorem chunksGo_count_nonempty {α : Type} (P : Nat) (hP : 0 < P) :
    ∀ (n : Nat) (l : List α), l.length ≤ n →
      ((chunksGo P n l).filter (fun pg => !pg.isEmpty)).length = (l.length + P - 1) / P
  | 0, l, hn => by
    have : l = [] := List.eq_nil_of_length_eq_zero (Nat.le_zero.mp hn)
    subst this
    simp [chunksGo]
    exact (Nat.div_eq_of_lt (by omega)).symm
  | n + 1, l, hn => by
    by_cases h : l.length < P
    · cases hl : l with
      | nil =>
        subst hl
        simp [chunksGo, hP]
        exact (Nat.div_eq_of_lt (by omega)).symm
      | cons a t =>
        have hlen : 0 < l.length := by rw [hl]; simp
        rw [← hl]
        rw [chunksGo]
        simp only [if_pos h]
        have hne : l.isEmpty = false := by
          cases l with
          | nil => simp at hlen
          | cons _ _ => rfl
        simp [List.filter, hne]
        exact (Nat.div_eq_of_lt_le (k := 1) (by omega) (by omega)).symm
    · have hrec := chunksGo_count_nonempty P hP n (l.drop P) (by simp; omega)
      rw [chunksGo]
      simp only [if_neg h]
      have htne : (l.take P).isEmpty = false := by
        have : (l.take P).length = P := by simp [List.length_take]; omega
        cases htk : l.take P with
        | nil => rw [htk] at this; simp at this; omega
        | cons _ _ => rfl
      simp [List.filter, htne, hrec]
      have h1 : l.length - P + P - 1 = l.length - 1 := by omega
      have h2 : l.length + P - 1 = (l.length - 1) + P := by omega
      rw [h1, h2, Nat.add_div_right _ hP]

/-- ORDER BY view of the whole matching set: the active-and-scheduled rows in
ascending identifier order. -/
def sortedMatching (table : List Deployment) : List Deployment :=
  List.insertionSort byIdLe (table.filter scheduledActive)

theorem pairwise_lt_of_le_nodup {M : List Deployment} (hle : M.Pairwise byIdLe)
    (hnd : (M.map Deployment.id).Nodup) : M.Pairwise byIdLt := by
  have hne : M.Pairwise (fun a b => a.id ≠ b.id) := List.pairwise_map.mp hnd
  exact (hle.and hne).imp (fun h => Nat.lt_of_le_of_ne h.1 h.2)

theorem sortedMatching_perm (table : List Deployment) :
    (sortedMatching table).Perm (table.filter scheduledActive) :=
  List.perm_insertionSort byIdLe _

/-- Sorting commutes with a further WHERE restriction when identifiers are distinct:
both sides are strictly-sorted permutations of the same rows. -/
theorem filter_insertionSort_comm (M : List Deployment)
    (hnd : (M.map Deployment.id).Nodup) (q : Deployment → Bool) :
    List.insertionSort byIdLe (M.filter q) = (List.insertionSort byIdLe M).filter q := by
  have hperm : (List.insertionSort byIdLe (M.filter q)).Perm
      ((List.insertionSort byIdLe M).filter q) :=
    (List.perm_insertionSort byIdLe (M.filter q)).trans
      (((List.perm_insertionSort byIdLe M).symm).filter q)
  have hnd1 : ((M.filter q).map Deployment.id).Nodup :=
    hnd.sublist ((List.filter_sublist M).map Deployment.id)
  have hnd1s : ((List.insertionSort byIdLe (M.filter q)).map Deployment.id).Nodup :=
    (((List.perm_insertionSort byIdLe (M.filter q)).map Deployment.id).nodup_iff).mpr hnd1
  have hs1 : (List.insertionSort byIdLe (M.filter q)).Pairwise byIdLt :=
    pairwise_lt_of_le_nodup (List.sorted_insertionSort byIdLe _) hnd1s
  have hndM : ((List.insertionSort byIdLe M).map Deployment.id).Nodup :=
    (((List.perm_insertionSort byIdLe M).map Deployment.id).nodup_iff).mpr hnd
  have hs2 : ((List.insertionSort byIdLe M).filter q).Pairwise byIdLt :=
    (pairwise_lt_of_le_nodup (List.sorted_insertionSort byIdLe _) hndM).sublist
      (List.filter_sublist _)
  exact List.eq_of_perm_of_sorted hperm hs1 hs2

/-- The page query over the raw table equals a `take` of the cursor-restricted
globally-sorted matching list. -/
theorem deploymentsPage_eq (table : List Deployment) (P : Nat) (last : Option Nat)
    (hnd : ((table.filter scheduledActive).map Deployment.id).Nodup) :
    deploymentsPage table P last =
      ((sortedMatching table).filter (cursorOk last)).take P := by
  have h1 : table.filter (fun d => scheduledActive d && cursorOk last d)
      = (table.filter scheduledActive).filter (cursorOk last) := by
    rw [List.filter_filter]
    exact List.filter_congr (fun x _ => Bool.and_comm _ _)
  unfold deploymentsPage
  rw [h1]
  simp only [filter_insertionSort_comm (table.filter scheduledActive) hnd (cursorOk last),
    sortedMatching]

theorem getLast_le_of_pairwise_le {d : Deployment} :
    ∀ {T : List Deployment}, T.Pairwise byIdLe → T.getLast? = some d →
      ∀ x ∈ T, x.id ≤ d.id
  | [], _, hd => by simp at hd
  | [a], _, hd => by
    simp at hd
    subst hd
    intro x hx
    simp at hx
    subst hx
    exact Nat.le_refl _
  | a :: b :: t, hp, hd => by
    rw [List.getLast?_cons_cons] at hd
    have hp' := List.pairwise_cons.mp hp
    intro x hx
    rcases List.mem_cons.mp hx with rfl | hx2
    · exact hp'.1 d (List.mem_of_mem_getLast? (Option.mem_def.mpr hd))
    · exact getLast_le_of_pairwise_le hp'.2 hd x hx2

/-- In a strictly-sorted list, the rows with identifier beyond the last row of the
first `P` rows are exactly the rows after position `P`. -/
theorem filter_gt_getLast_take {S : List Deployment} (hS : S.Pairwise byIdLt) {P : Nat}
    {d : Deployment} (hd : (S.take P).getLast? = some d) :
    S.filter (fun x => decide (d.id < x.id)) = S.drop P := by
  have hSle : S.Pairwise byIdLe := hS.imp (fun h => Nat.le_of_lt h)
  have htake_le : ∀ x ∈ S.take P, x.id ≤ d.id :=
    getLast_le_of_pairwise_le (hSle.sublist (List.take_sublist P S)) hd
  have h1 : (S.take P).filter (fun x => decide (d.id < x.id)) = [] :=
    List.filter_eq_nil_iff.mpr (fun x hx => by
      simp only [decide_eq_true_eq, Nat.not_lt]
      exact htake_le x hx)
  have hsplit := List.take_append_drop P S
  have hrel : ∀ x ∈ S.take P, ∀ y ∈ S.drop P, byIdLt x y := by
    have hp := hS
    rw [← hsplit] at hp
    exact (List.pairwise_append.mp hp).2.2
  have hdmem : d ∈ S.take P := List.mem_of_mem_getLast? (Option.mem_def.mpr hd)
  have h2 : (S.drop P).filter (fun x => decide (d.id < x.id)) = S.drop P :=
    List.filter_eq_self.mpr (fun y hy => by
      simp only [decide_eq_true_eq]
      exact hrel d hdmem y hy)
  conv_lhs => rw [← hsplit]
  rw [List.filter_append, h1, h2, List.nil_append]

/-- Advancing the cursor to the last identifier of a full page restricts the sorted
matching list to exactly the rows after that page. -/
theorem cursor_step (L : List Deployment) (hlt : L.Pairwise byIdLt)
    (hnz : ∀ x ∈ L, x.id ≠ 0) (last : Option Nat) {P : Nat} {d : Deployment}
    (hd : ((L.filter (cursorOk last)).take P).getLast? = some d) :
    L.filter (cursorOk (some d.id)) = (L.filter (cursorOk last)).drop P := by
  have hdS : d ∈ L.filter (cursorOk last) :=
    List.mem_of_mem_take (List.mem_of_mem_getLast? (Option.mem_def.mpr hd))
  have hdL : d ∈ L := List.mem_of_mem_filter hdS
  have hdc : cursorOk last d = true := List.of_mem_filter hdS
  have hdnz : d.id ≠ 0 := hnz d hdL
  have hc1 : ∀ x, cursorOk (some d.id) x = decide (d.id < x.id) := by
    intro x
    simp [cursorOk, truthy, hdnz]
  have hstep1 : L.filter (cursorOk (some d.id)) =
      L.filter (fun x => decide (d.id < x.id)) :=
    List.filter_congr (fun x _ => hc1 x)
  have hstep2 : (L.filter (cursorOk last)).filter (fun x => decide (d.id < x.id)) =
      L.filter (fun x => decide (d.id < x.id)) := by
    rw [List.filter_filter]
    refine List.filter_congr (fun x _ => ?_)
    cases hx : decide (d.id < x.id) with
    | false => simp
    | true =>
      simp only [Bool.true_and]
      cases htl : truthy last with
      | false => simp [cursorOk, htl]
      | true =>
        simp only [cursorOk, htl, if_true] at hdc ⊢
        simp only [decide_eq_true_eq] at hdc hx ⊢
        omega
  have hSlt : (L.filter (cursorOk last)).Pairwise byIdLt :=
    hlt.sublist (List.filter_sublist _)
  rw [hstep1, ← hstep2, filter_gt_getLast_take hSlt hd]

/-- Simulation of the pagination loop: with distinct, truthy (non-zero) identifiers and
a positive page size, the loop from any cursor position computes exactly the successive
`take P` chunks of the cursor-restricted sorted matching list. -/
theorem pagesAux_eq_chunksGo (table : List Deployment) (P : Nat) (hP : 0 < P)
    (hnd : ((table.filter scheduledActive).map Deployment.id).Nodup)
    (hnz : ∀ x ∈ table.filter scheduledActive, x.id ≠ 0) :
    ∀ (n : Nat) (last : Option Nat) (S : List Deployment),
      S = (sortedMatching table).filter (cursorOk last) → S.length ≤ n →
      pagesAux table P (n + 1) last = some (chunksGo P n S) := by
  have hperm := sortedMatching_perm table
  have hndL : ((sortedMatching table).map Deployment.id).Nodup :=
    ((hperm.map Deployment.id).nodup_iff).mpr hnd
  have hlt : (sortedMatching table).Pairwise byIdLt :=
    pairwise_lt_of_le_nodup (List.sorted_insertionSort byIdLe _) hndL
  have hnzL : ∀ x ∈ sortedMatching table, x.id ≠ 0 := fun x hx =>
    hnz x (hperm.mem_iff.mp hx)
  intro n
  induction n with
  | zero =>
    intro last S hSeq hlen
    have hSnil : S = [] := List.eq_nil_of_length_eq_zero (Nat.le_zero.mp hlen)
    have hpage : deploymentsPage table P last = [] := by
      rw [deploymentsPage_eq table P last hnd, ← hSeq, hSnil]
      exact List.take_nil
    rw [pagesAux]
    simp [hpage, hP, hSnil, chunksGo]
  | succ m ih =>
    intro last S hSeq hlen
    have hpage : deploymentsPage table P last = S.take P := by
      rw [deploymentsPage_eq table P last hnd, ← hSeq]
    by_cases hcase : S.length < P
    · have htake : S.take P = S := List.take_of_length_le (Nat.le_of_lt hcase)
      rw [pagesAux]
      simp only [hpage, htake]
      rw [if_pos hcase, chunksGo, if_pos hcase]
    · have hlenS : P ≤ S.length := Nat.le_of_not_lt hcase
      have hlen_take : (S.take P).length = P := by
        simp [List.length_take]
        omega
      have hne : S.take P ≠ [] := by
        intro hnil
        rw [hnil] at hlen_take
        simp at hlen_take
        omega
      obtain ⟨d, hd⟩ : ∃ d, (S.take P).getLast? = some d := by
        cases hgl : (S.take P).getLast? with
        | none => exact absurd (List.getLast?_eq_none_iff.mp hgl) hne
        | some d => exact ⟨d, rfl⟩
      have hstep : (sortedMatching table).filter (cursorOk (some d.id)) = S.drop P := by
        have hc := cursor_step (sortedMatching table) hlt hnzL last
          (P := P) (d := d) (by rw [← hSeq]; exact hd)
        rw [← hSeq] at hc
        exact hc
      have ihres := ih (some d.id) (S.drop P) hstep.symm (by simp; omega)
      rw [pagesAux]
      simp only [hpage]
      rw [if_neg (by rw [hlen_take]; omega), hd]
      simp only [ihres]
      rw [chunksGo, if_neg hcase]
      rfl

theorem cursorOk_none (x : Deployment) : cursorOk none x = true := rfl

/-- C1 (amended): for distinct, truthy (non-zero) identifiers and positive page size,
one invocation's pagination visits each active-and-scheduled deployment exactly once
(the concatenated pages are a strictly id-sorted permutation of the matching rows),
spreads them over `⌈N/P⌉` non-empty pages, fills every page before the last to exactly
`P` rows, and stops on the first page shorter than `P`. -/
theorem scheduler_pagination_correct (table : List Deployment) (P : Nat) (hP : 0 < P)
    (hnd : ((table.filter scheduledActive).map Deployment.id).Nodup)
    (hnz : ∀ x ∈ table.filter scheduledActive, x.id ≠ 0) :
    ∃ pages,
      runPages table P ((table.filter scheduledActive).length + 1) = some pages ∧
      pages.join.Perm (table.filter scheduledActive) ∧
      pages.join.Pairwise byIdLt ∧
      (pages.filter (fun pg => !pg.isEmpty)).length =
        ((table.filter scheduledActive).length + P - 1) / P ∧
      (∀ pg ∈ pages.dropLast, pg.length = P) ∧
      (∀ pg, pages.getLast? = some pg → pg.length < P) := by
  have hperm := sortedMatching_perm table
  have hndL : ((sortedMatching table).map Deployment.id).Nodup :=
    ((hperm.map Deployment.id).nodup_iff).mpr hnd
  have hlt : (sortedMatching table).Pairwise byIdLt :=
    pairwise_lt_of_le_nodup (List.sorted_insertionSort byIdLe _) hndL
  have hLfilter : (sortedMatching table).filter (cursorOk none) = sortedMatching table :=
    List.filter_eq_self.mpr (fun x _ => cursorOk_none x)
  have hlenL : (sortedMatching table).length = (table.filter scheduledActive).length :=
    hperm.length_eq
  have hmain := pagesAux_eq_chunksGo table P hP hnd hnz (sortedMatching table).length none
    (sortedMatching table) hLfilter.symm (Nat.le_refl _)
  refine ⟨chunksGo P (sortedMatching table).length (sortedMatching table),
    ?_, ?_, ?_, ?_, ?_, ?_⟩
  · rw [runPages, ← hlenL]
    exact hmain
  · rw [chunksGo_join]
    exact hperm
  · rw [chunksGo_join]
    exact hlt
  · rw [chunksGo_count_nonempty P hP _ _ (Nat.le_refl _), hlenL]
  · exact chunksGo_dropLast_full P hP _ _ (Nat.le_refl _)
  · exact chunksGo_getLast_short P hP _ _ (Nat.le_refl _)

/-- Deployment with identifier `0` — a falsy cursor value — used to refute C1 as
stated: the cursor `if last_id:` check skips the `id > last_id` restriction, so the
same page repeats forever. -/
def cexDeployment : Deployment :=
  { id := 0, name := "d-0", tags := [], schedule := some "rule", is_schedule_active := true }

theorem pagesAux_cex_aux : ∀ fuel, pagesAux [cexDeployment] 1 fuel (some 0) = none
  | 0 => rfl
  | fuel + 1 => by
    have h : pagesAux [cexDeployment] 1 (fuel + 1) (some 0)
        = (pagesAux [cexDeployment] 1 fuel (some 0)).map ([cexDeployment] :: ·) := rfl
    rw [h, pagesAux_cex_aux fuel]
    rfl

/-- C1 counterexample: a single active-and-scheduled deployment whose identifier is
`0` (distinct, but falsy) with page size `1` makes the pagination loop return the same
full page forever — it never terminates, so it cannot visit each deployment exactly
once across finitely many pages. -/
theorem scheduler_pagination_zero_id_cex : ¬ paginationTerminates [cexDeployment] 1 := by
  rintro ⟨fuel, hfuel⟩
  cases fuel with
  | zero => simp [runPages, pagesAux] at hfuel
  | succ n =>
    have h : runPages [cexDeployment] 1 (n + 1)
        = (pagesAux [cexDeployment] 1 n (some 0)).map ([cexDeployment] :: ·) := rfl
    rw [h, pagesAux_cex_aux n] at hfuel
    simp at hfuel

/-- Concrete deployment table used to instantiate the pagination theorems: seven
active-and-scheduled deployments with ids 1..7 (the spec section 8 example). -/
def witnessTable : List Deployment :=
  [⟨1, "d1", [], some "r", true⟩, ⟨2, "d2", [], some "r", true⟩,
   ⟨3, "d3", [], some "r", true⟩, ⟨4, "d4", [], some "r", true⟩,
   ⟨5, "d5", [], some "r", true⟩, ⟨6, "d6", [], some "r", true⟩,
   ⟨7, "d7", [], some "r", true⟩]

/-- C1 witness: the amended pagination theorem instantiated at the seven-deployment
table with page size 3 (pages `[1,2,3]`, `[4,5,6]`, `[7]`). -/
theorem scheduler_pagination_correct_witness :
    ∃ pages,
      runPages witnessTable 3 ((witnessTable.filter scheduledActive).length + 1) =
        some pages ∧
      pages.join.Perm (witnessTable.filter scheduledActive) ∧
      pages.join.Pairwise byIdLt ∧
      (pages.filter (fun pg => !pg.isEmpty)).length =
        ((witnessTable.filter scheduledActive).length + 3 - 1) / 3 ∧
      (∀ pg ∈ pages.dropLast, pg.length = 3) ∧
      (∀ pg, pages.getLast? = some pg → pg.length < 3) :=
  scheduler_pagination_correct witnessTable 3 (by decide) (by decide) (by decide)

/-- C10: for a deployment table whose matching identifiers are distinct and truthy
(non-zero), and a positive page size, the pagination loop of `run_once` terminates:
some finite fuel suffices to reach the final short page. -/
theorem scheduler_pagination_terminates (table : List Deployment) (P : Nat) (hP : 0 < P)
    (hnd : ((table.filter scheduledActive).map Deployment.id).Nodup)
    (hnz : ∀ x ∈ table.filter scheduledActive, x.id ≠ 0) :
    paginationTerminates table P := by
  have hLfilter : (sortedMatching table).filter (cursorOk none) = sortedMatching table :=
    List.filter_eq_self.mpr (fun x _ => cursorOk_none x)
  have hmain := pagesAux_eq_chunksGo table P hP hnd hnz (sortedMatching table).length none
    (sortedMatching table) hLfilter.symm (Nat.le_refl _)
  exact ⟨(sortedMatching table).length + 1, by rw [runPages, hmain]; rfl⟩

/-- C10 witness: the termination theorem instantiated at the seven-deployment table
with page size 3. -/
theorem scheduler_pagination_terminates_witness : paginationTerminates witnessTable 3 :=
  scheduler_pagination_terminates witnessTable 3 (by decide) (by decide) (by decide)

/-- C4: if any call to the schedule generator or the bulk-insert collaborator raises
during one invocation — every such error propagates out of the page loop, ending the
transaction body in that error — then the invocation commits nothing: the run table
rolls back to its initial state, including rows from pages already processed. -/
theorem scheduler_rollback {σ E : Type} (gen : Nat → Int → Int → Nat → Except E (List RunKey))
    (ins : σ → List RunKey → Except E (σ × Nat)) (table : List Deployment)
    (P maxRuns ibs : Nat) (now horizon : Int) (fuel : Nat) (init : σ) (s : σ) (e : E)
    (h : run_once gen ins table P maxRuns ibs now horizon fuel init
      = some (s, Except.error e)) :
    s = init := by
  unfold run_once at h
  cases haux : run_once_aux gen ins table P maxRuns ibs now horizon fuel none init 0 with
  | none => rw [haux] at h; simp at h
  | some r =>
    rw [haux] at h
    cases r with
    | error e2 =>
      simp at h
      exact h.1.symm
    | ok p =>
      simp at h

/-- Generator raising on deployment id 2, used to exercise the rollback theorem after
a first page has already inserted a row. -/
def cexGen : Nat → Int → Int → Nat → Except String (List RunKey) :=
  fun i _ _ _ => if i == 2 then Except.error "boom" else Except.ok [⟨i, 10⟩]

/-- C4 witness: with page size 1 over deployments 1 and 2, the generator succeeds on
the first page (one row is inserted and flushed) and raises on the second; the
invocation reports the error and the committed run table equals the initial one. -/
theorem scheduler_rollback_witness :
    run_once cexGen insDedup (witnessTable.take 2) 1 5 1 0 3 5 ([] : List RunKey)
        = some ([], Except.error "boom") ∧
      ([] : List RunKey) = [] :=
  ⟨rfl, scheduler_rollback cexGen insDedup (witnessTable.take 2) 1 5 1 0 3 5 [] [] "boom" rfl⟩

theorem insert_mono : ∀ (rs db : List RunKey) (x : RunKey), x ∈ db →
    x ∈ (insert_scheduled_flow_runs db rs).1
  | [], _, _, hx => hx
  | r :: rs, db, x, hx => by
    rw [insert_scheduled_flow_runs]
    by_cases hc : db.contains r
    · rw [if_pos hc]
      exact insert_mono rs db x hx
    · rw [if_neg hc]
      exact insert_mono rs (db ++ [r]) x (List.mem_append_left _ hx)

theorem insert_complete : ∀ (rs db : List RunKey) (r : RunKey), r ∈ rs →
    r ∈ (insert_scheduled_flow_runs db rs).1
  | r0 :: rs, db, r, hr => by
    rw [insert_scheduled_flow_runs]
    by_cases hc : db.contains r0
    · rw [if_pos hc]
      rcases List.mem_cons.mp hr with rfl | hr2
      · exact insert_mono rs db r (List.elem_iff.mp hc)
      · exact insert_complete rs db r hr2
    · rw [if_neg hc]
      rcases List.mem_cons.mp hr with rfl | hr2
      · exact insert_mono rs (db ++ [r]) r (List.mem_append_right _ (List.mem_singleton.mpr rfl))
      · exact insert_complete rs (db ++ [r0]) r hr2

theorem insert_replay : ∀ (rs db : List RunKey), (∀ r ∈ rs, r ∈ db) →
    insert_scheduled_flow_runs db rs = (db, [])
  | [], _, _ => rfl
  | r :: rs, db, h => by
    rw [insert_scheduled_flow_runs,
      if_pos (List.elem_iff.mpr (h r (List.mem_cons_self r rs))),
      insert_replay rs db (fun x hx => h x (List.mem_cons_of_mem r hx))]

theorem insertBatches_dedup_mono {E : Type} :
    ∀ (bs : List (List RunKey)) (db : List RunKey) (t : Nat) (dbf : List RunKey) (tf : Nat),
      insertBatches (insDedup (E := E)) bs db t = Except.ok (dbf, tf) →
      ∀ x ∈ db, x ∈ dbf
  | [], db, t, dbf, tf, h => by
    simp [insertBatches] at h
    intro x hx
    rw [← h.1]
    exact hx
  | b :: bs, db, t, dbf, tf, h => by
    rw [insertBatches, insDedup] at h
    intro x hx
    exact insertBatches_dedup_mono bs _ _ dbf tf h x (insert_mono b db x hx)

theorem insertBatches_dedup_complete {E : Type} :
    ∀ (bs : List (List RunKey)) (db : List RunKey) (t : Nat) (dbf : List RunKey) (tf : Nat),
      insertBatches (insDedup (E := E)) bs db t = Except.ok (dbf, tf) →
      ∀ r ∈ bs.join, r ∈ dbf
  | [], _, _, _, _, _ => by simp
  | b :: bs, db, t, dbf, tf, h => by
    rw [insertBatches, insDedup] at h
    intro r hr
    rcases (by simpa using hr : r ∈ b ∨ ∃ l ∈ bs, r ∈ l) with h1 | ⟨l, hl, hrl⟩
    · exact insertBatches_dedup_mono bs _ _ dbf tf h r (insert_complete b db r h1)
    · exact insertBatches_dedup_complete bs _ _ dbf tf h r
        (List.mem_join.mpr ⟨l, hl, hrl⟩)

theorem insertBatches_dedup_replay {E : Type} :
    ∀ (bs : List (List RunKey)) (db : List RunKey) (t : Nat),
      (∀ r ∈ bs.join, r ∈ db) →
      insertBatches (insDedup (E := E)) bs db t = Except.ok (db, t)
  | [], db, t, _ => rfl
  | b :: bs, db, t, h => by
    have hin : insert_scheduled_flow_runs db b = (db, []) :=
      insert_replay b db (fun r hr => h r (by simp [hr]))
    rw [insertBatches, insDedup, hin]
    simpa using insertBatches_dedup_replay bs db t (fun r hr => h r (by simp [hr]))

theorem run_once_aux_succ {σ E : Type} (gen : Nat → Int → Int → Nat → Except E (List RunKey))
    (ins : σ → List RunKey → Except E (σ × Nat)) (table : List Deployment)
    (P maxRuns ibs : Nat) (now horizon : Int) (m : Nat) (last : Option Nat) (s : σ)
    (t : Nat) :
    run_once_aux gen ins table P maxRuns ibs now horizon (m + 1) last s t =
      match collectRuns (fun i => gen i now (now + horizon) maxRuns)
          (deploymentsPage table P last) with
      | Except.error e => some (Except.error e)
      | Except.ok all_runs =>
        match insertBatches ins (batched_iterable all_runs ibs) s t with
        | Except.error e => some (Except.error e)
        | Except.ok (s', total') =>
          if (deploymentsPage table P last).length < P then some (Except.ok (s', total'))
          else
            match (deploymentsPage table P last).getLast? with
            | none => none
            | some d =>
              run_once_aux gen ins table P maxRuns ibs now horizon m (some d.id) s' total' :=
  rfl

theorem run_once_aux_dedup_mono {E : Type}
    (gen : Nat → Int → Int → Nat → Except E (List RunKey)) (table : List Deployment)
    (P maxRuns ibs : Nat) (now horizon : Int) :
    ∀ (fuel : Nat) (last : Option Nat) (db : List RunKey) (t : Nat)
      (dbf : List RunKey) (tf : Nat),
      run_once_aux gen insDedup table P maxRuns ibs now horizon fuel last db t
        = some (Except.ok (dbf, tf)) →
      ∀ x ∈ db, x ∈ dbf := by
  intro fuel
  induction fuel with
  | zero =>
    intro last db t dbf tf h
    simp [run_once_aux] at h
  | succ m ih =>
    intro last db t dbf tf h x hx
    rw [run_once_aux_succ] at h
    split at h
    · simp at h
    · rename_i all_runs hcr
      split at h
      · simp at h
      · rename_i s2 t2 hib
        split at h
        · simp at h
          exact h.1 ▸ insertBatches_dedup_mono _ _ _ _ _ hib x hx
        · split at h
          · simp at h
          · exact ih _ _ _ _ _ h x (insertBatches_dedup_mono _ _ _ _ _ hib x hx)

theorem run_once_aux_dedup_replay {E : Type}
    (gen : Nat → Int → Int → Nat → Except E (List RunKey)) (table : List Deployment)
    (P maxRuns ibs : Nat) (now horizon : Int) :
    ∀ (fuel : Nat) (last : Option Nat) (db : List RunKey) (t : Nat)
      (dbf : List RunKey) (tf : Nat),
      run_once_aux gen insDedup table P maxRuns ibs now horizon fuel last db t
        = some (Except.ok (dbf, tf)) →
      ∀ t2 : Nat,
        run_once_aux gen insDedup table P maxRuns ibs now horizon fuel last dbf t2
          = some (Except.ok (dbf, t2)) := by
  intro fuel
  induction fuel with
  | zero =>
    intro last db t dbf tf h
    simp [run_once_aux] at h
  | succ m ih =>
    intro last db t dbf tf h t2
    rw [run_once_aux_succ] at h
    rw [run_once_aux_succ]
    split at h
    · simp at h
    · rename_i all_runs hcr
      split at h
      · simp at h
      · rename_i s2 tp hib
        -- rows offered on this page are all present in the final table
        split at h
        · -- short page: the loop ends here and dbf = s2
          rename_i hshort
          simp at h
          obtain ⟨hdb, _⟩ := h
          subst hdb
          have hall : ∀ r ∈ (batched_iterable all_runs ibs).join, r ∈ s2 :=
            insertBatches_dedup_complete _ _ _ _ _ hib
          rw [insertBatches_dedup_replay _ _ _ hall]
          dsimp only
          rw [if_pos hshort]
        · rename_i hlong
          split at h
          · simp at h
          · rename_i d hlast
            have hmono : ∀ x ∈ s2, x ∈ dbf :=
              run_once_aux_dedup_mono gen table P maxRuns ibs now horizon m _ _ _ _ _ h
            have hall : ∀ r ∈ (batched_iterable all_runs ibs).join, r ∈ dbf :=
              fun r hr => hmono r (insertBatches_dedup_complete _ _ _ _ _ hib r hr)
            rw [insertBatches_dedup_replay _ _ _ hall]
            dsimp only
            rw [if_neg hlong]
            exact ih _ _ _ _ _ h t2

/-- C5: with the deduplicating insert collaborator and a (pure, hence deterministic for
a fixed window) generator, re-running the materializer from the state left by a
completed first run — same deployment table, same captured `now`, same horizon —
leaves the run table unchanged and reports zero inserted rows. -/
theorem scheduler_idempotent {E : Type}
    (gen : Nat → Int → Int → Nat → Except E (List RunKey)) (table : List Deployment)
    (P maxRuns ibs : Nat) (now horizon : Int) (fuel : Nat) (init db1 : List RunKey)
    (t1 : Nat)
    (h : run_once gen insDedup table P maxRuns ibs now horizon fuel init
      = some (db1, Except.ok t1)) :
    run_once gen insDedup table P maxRuns ibs now horizon fuel db1
      = some (db1, Except.ok 0) := by
  unfold run_once at h ⊢
  cases haux : run_once_aux gen insDedup table P maxRuns ibs now horizon fuel none init 0 with
  | none => rw [haux] at h; simp at h
  | some r =>
    rw [haux] at h
    cases r with
    | error e => simp at h
    | ok p =>
      obtain ⟨dbx, tx⟩ := p
      simp at h
      obtain ⟨hdb, _⟩ := h
      subst hdb
      rw [run_once_aux_dedup_replay gen table P maxRuns ibs now horizon fuel none init 0
        dbx tx haux 0]

/-- Pure candidate function for the idempotence witness: one run per deployment at a
fixed scheduled time. -/
def witnessGen : Nat → Int → Int → Nat → List RunKey := fun i _ _ _ => [⟨i, 10⟩]

/-- Run table left by the first witness invocation. -/
def witnessDb : List RunKey := [⟨1, 10⟩, ⟨2, 10⟩]

/-- C5 witness: a first invocation over deployments 1 and 2 (page size 1) inserts two
rows; the theorem applied to that completed run shows the second invocation from the
resulting table reports zero inserted rows. -/
theorem scheduler_idempotent_witness :
    run_once (pureGen (E := Unit) witnessGen) insDedup (witnessTable.take 2) 1 5 10 0 3 5
        witnessDb
      = some (witnessDb, Except.ok 0) :=
  scheduler_idempotent (pureGen witnessGen) (witnessTable.take 2) 1 5 10 0 3 5 []
    witnessDb 2 rfl

theorem insertBatches_log {E : Type} :
    ∀ (bs : List (List RunKey)) (log : List (List RunKey)) (t : Nat),
      insertBatches (insLog (E := E)) bs log t = Except.ok (log ++ bs, t)
  | [], log, t => by simp [insertBatches]
  | b :: bs, log, t => by
    rw [insertBatches, insLog]
    dsimp only
    rw [insertBatches_log bs (log ++ [b]) (t + 0)]
    simp

theorem batchesGo_join {α : Type} (n : Nat) :
    ∀ (fuel : Nat) (l : List α), (batchesGo n fuel l).join = l := by
  intro fuel
  induction fuel with
  | zero =>
    intro l
    cases l <;> simp [batchesGo]
  | succ m ih =>
    intro l
    cases l with
    | nil => simp [batchesGo]
    | cons a tl =>
      rw [batchesGo]
      · simp [ih]
      · simp

theorem batchesGo_size {α : Type} (n : Nat) (hn : 0 < n) :
    ∀ (fuel : Nat) (l : List α), l.length ≤ fuel →
      ∀ b ∈ batchesGo n fuel l, b.length ≤ n := by
  intro fuel
  induction fuel with
  | zero =>
    intro l hl
    have : l = [] := List.eq_nil_of_length_eq_zero (Nat.le_zero.mp hl)
    subst this
    simp [batchesGo]
  | succ m ih =>
    intro l hl b hb
    cases l with
    | nil => simp [batchesGo] at hb
    | cons a tl =>
      rw [batchesGo] at hb
      · rcases List.mem_cons.mp hb with rfl | hb2
        · simp [List.length_take]
        · exact ih _ (by simp at hl ⊢; omega) b hb2
      · simp

/-- In-order concatenation characterization of a page's accumulated candidates: a
successful `collectRuns` means every generator call on the page succeeded and the
accumulated list is the concatenation of the per-deployment outputs in page order. -/
theorem collectRuns_ok {E : Type} (gen : Nat → Except E (List RunKey)) :
    ∀ (page : List Deployment) (all_runs : List RunKey),
      collectRuns gen page = Except.ok all_runs →
      (∀ d ∈ page, ∃ rs, gen d.id = Except.ok rs) ∧
      all_runs = (page.map (fun d =>
        match gen d.id with
        | Except.ok rs => rs
        | Except.error _ => [])).join
  | [], all_runs, h => by
    simp [collectRuns] at h
    subst h
    simp
  | d :: ds, all_runs, h => by
    rw [collectRuns] at h
    split at h
    · simp at h
    · rename_i runs hg
      split at h
      · simp at h
      · rename_i rest hc
        simp at h
        obtain ⟨hall, hjoin⟩ := collectRuns_ok gen ds rest hc
        refine ⟨?_, ?_⟩
        · intro x hx
          rcases List.mem_cons.mp hx with rfl | hx2
          · exact ⟨runs, hg⟩
          · exact hall x hx2
        · rw [← h, hjoin]
          simp [hg]

/-- C9: within one page of an invocation, every candidate returned by the generator is
offered to the bulk insert exactly once: run against the chunk-logging insert
collaborator, the chunks offered are exactly `batched_iterable all_runs ibs`; their
concatenation is the page's accumulated candidate list `all_runs` in order (itself the
in-order concatenation of the generator outputs over the page), and every chunk holds
at most `ibs` runs. -/
theorem page_offers_each_candidate_once {E : Type} (gen : Nat → Except E (List RunKey))
    (page : List Deployment) (ibs : Nat) (hibs : 0 < ibs) (all_runs : List RunKey)
    (hgen : collectRuns gen page = Except.ok all_runs)
    (log : List (List RunKey)) (t : Nat) :
    insertBatches (insLog (E := E)) (batched_iterable all_runs ibs) log t
        = Except.ok (log ++ batched_iterable all_runs ibs, t) ∧
      (batched_iterable all_runs ibs).join = all_runs ∧
      (∀ b ∈ batched_iterable all_runs ibs, b.length ≤ ibs) ∧
      all_runs = (page.map (fun d =>
        match gen d.id with
        | Except.ok rs => rs
        | Except.error _ => [])).join :=
  ⟨insertBatches_log _ log t,
    batchesGo_join ibs all_runs.length all_runs,
    batchesGo_size ibs hibs all_runs.length all_runs (Nat.le_refl _),
    (collectRuns_ok gen page all_runs hgen).2⟩

/-- C9 witness: the page of deployments 1 and 2 with chunk size 1 offers the two
generated candidates as two singleton chunks, in order. -/
theorem page_offers_each_candidate_once_witness :
    insertBatches (insLog (E := Unit)) (batched_iterable witnessDb 1) [] 0
        = Except.ok ([] ++ batched_iterable witnessDb 1, 0) ∧
      (batched_iterable witnessDb 1).join = witnessDb ∧
      (∀ b ∈ batched_iterable witnessDb 1, b.length ≤ 1) ∧
      witnessDb = ((witnessTable.take 2).map (fun d =>
        match (Except.ok [RunKey.mk d.id 10] : Except Unit (List RunKey)) with
        | Except.ok rs => rs
        | Except.error _ => [])).join :=
  page_offers_each_candidate_once (fun i => Except.ok [RunKey.mk i 10])
    (witnessTable.take 2) 1 (by decide) witnessDb rfl [] 0

end PrefectSpec
